import Mathlib

/-!
Verification of the comment-deduplication and notification-dispatch core of
the VK comment monitoring script (`monitor.py`).

The embedding translates the stateful Python code into explicit state
passing:

* the global mutable state (`seen_comments : set`, `is_first_run : bool`)
  becomes the structure `MonitorState`;
* one invocation of `process_comments` becomes a pure function from a
  `MonitorState` and the fetched data (the per-post comment-identifier
  lists, in the order returned by the source) to a `CycleOutput` recording
  the final state, the ordered list of comment identifiers for which a
  Telegram delivery was attempted, and the local `new_comments_count`
  counter;
* the Telegram sink is a function `sink : Int → Bool` giving the success of
  `send_telegram_message` for the notification of each comment identifier;
* `send_telegram_message` itself is modelled separately as a retry loop over
  an attempt-outcome oracle;
* the author-enrichment loop of `get_post_comments` is modelled with
  `Except`, a raised `TypeError` becoming an `error` value.
-/

namespace VKMonitor

/-- The process-wide mutable state of `monitor.py`: the in-memory cache
`seen_comments` of already-processed comment identifiers and the first-run
flag `is_first_run` used for bootstrap suppression. -/
structure MonitorState where
  seen_comments : Finset Int
  is_first_run : Bool
deriving DecidableEq

/-- The observable result of one invocation of `process_comments`: the
updated state, the ordered list of comment identifiers for which
`send_telegram_message` was invoked, and the final value of the local
`new_comments_count` counter. During the inner loops this structure is
also the fold accumulator. -/
structure CycleOutput where
  state : MonitorState
  attempts : List Int
  newCount : Nat
deriving DecidableEq

/-- The body of the inner `for comment in comments` loop of
`process_comments` (monitor.py lines 417-444) for a single comment
identifier: skip if already seen; otherwise add to `seen_comments`; during
the first run do not notify; otherwise attempt delivery, incrementing
`new_comments_count` exactly when `send_telegram_message` returns True. -/
def stepComment (sink : Int → Bool) (acc : CycleOutput) (comment_id : Int) : CycleOutput :=
  if comment_id ∈ acc.state.seen_comments then acc
  else
    let st : MonitorState :=
      { acc.state with seen_comments := insert comment_id acc.state.seen_comments }
    if acc.state.is_first_run then { acc with state := st }
    else if sink comment_id then
      { state := st, attempts := acc.attempts ++ [comment_id], newCount := acc.newCount + 1 }
    else
      { state := st, attempts := acc.attempts ++ [comment_id], newCount := acc.newCount }

/-- Processing of one post's fetched comment list (the inner loop;
`if not comments: continue` is the fold over the empty list). -/
def processPost (sink : Int → Bool) (acc : CycleOutput) (comments : List Int) : CycleOutput :=
  comments.foldl (stepComment sink) acc

/-- The comment-enumeration phase of `process_comments`: folds the inner
loop over all fetched posts, starting from `new_comments_count = 0` and no
attempts.  This is the state just before the end-of-cycle first-run flag
update and cache-ceiling check. -/
def processAllPosts (sink : Int → Bool) (s : MonitorState) (posts : List (List Int)) :
    CycleOutput :=
  posts.foldl (processPost sink) ⟨s, [], 0⟩

/-- One invocation of `process_comments` (monitor.py lines 382-457).
`posts` is the list of fetched posts, each given by its fetched
comment-identifier list (newest first).  If no posts were fetched the
function returns early with no state change.  Otherwise, after the comment
enumeration, the first-run flag is lowered if it was set, and finally the
whole cache is cleared when its cardinality exceeds `cacheLimit`
(CACHE_LIMIT). -/
def process_comments (cacheLimit : Nat) (sink : Int → Bool)
    (s : MonitorState) (posts : List (List Int)) : CycleOutput :=
  if posts.isEmpty then ⟨s, [], 0⟩
  else
    let acc := processAllPosts sink s posts
    let s1 := if acc.state.is_first_run then { acc.state with is_first_run := false }
              else acc.state
    let s2 := if s1.seen_comments.card > cacheLimit then { s1 with seen_comments := ∅ }
              else s1
    ⟨s2, acc.attempts, acc.newCount⟩

/-- A run of several consecutive cycles from a state: each cycle supplies
the fetched posts and that cycle's sink behaviour.  Returns the final state
and the concatenation of all delivery attempts, in order. -/
def runCycles (cacheLimit : Nat) :
    MonitorState → List (List (List Int) × (Int → Bool)) → MonitorState × List Int
  | s, [] => (s, [])
  | s, (posts, sink) :: rest =>
    let out := process_comments cacheLimit sink s posts
    let r := runCycles cacheLimit out.state rest
    (r.1, out.attempts ++ r.2)

/-- The intermediate states visible at the end of each cycle of a
`runCycles` run (the state at the start of cycle i+1). -/
def statesAfter (cacheLimit : Nat) :
    MonitorState → List (List (List Int) × (Int → Bool)) → List MonitorState
  | _, [] => []
  | s, (posts, sink) :: rest =>
    let s1 := (process_comments cacheLimit sink s posts).state
    s1 :: statesAfter cacheLimit s1 rest

/-! ### Basic lemmas about one comment step -/

section StepLemmas

variable {sink : Int → Bool} {acc : CycleOutput} {cid : Int}

lemma stepComment_of_mem (h : cid ∈ acc.state.seen_comments) :
    stepComment sink acc cid = acc := by
  simp [stepComment, h]

lemma stepComment_seen_of_not_mem (h : cid ∉ acc.state.seen_comments) :
    (stepComment sink acc cid).state.seen_comments = insert cid acc.state.seen_comments := by
  unfold stepComment
  by_cases hf : acc.state.is_first_run <;> by_cases hs : sink cid <;> simp [h, hf, hs]

lemma stepComment_is_first_run (sink : Int → Bool) (acc : CycleOutput) (cid : Int) :
    (stepComment sink acc cid).state.is_first_run = acc.state.is_first_run := by
  unfold stepComment
  by_cases h : cid ∈ acc.state.seen_comments <;>
    by_cases hf : acc.state.is_first_run <;> by_cases hs : sink cid <;> simp [h, hf, hs]

lemma stepComment_attempts_cases (sink : Int → Bool) (acc : CycleOutput) (cid : Int) :
    (stepComment sink acc cid).attempts = acc.attempts ∨
    ((stepComment sink acc cid).attempts = acc.attempts ++ [cid] ∧
      cid ∉ acc.state.seen_comments ∧ acc.state.is_first_run = false) := by
  unfold stepComment
  by_cases h : cid ∈ acc.state.seen_comments
  · left; simp [h]
  · by_cases hf : acc.state.is_first_run
    · left; simp [h, hf]
    · right
      refine ⟨?_, h, by simpa using hf⟩
      by_cases hs : sink cid <;> simp [h, hf, hs]

lemma stepComment_attempts_of_not_mem_not_first
    (h : cid ∉ acc.state.seen_comments) (hf : acc.state.is_first_run = false) :
    (stepComment sink acc cid).attempts = acc.attempts ++ [cid] := by
  unfold stepComment
  by_cases hs : sink cid <;> simp [h, hf, hs]

lemma stepComment_seen_mono :
    acc.state.seen_comments ⊆ (stepComment sink acc cid).state.seen_comments := by
  by_cases h : cid ∈ acc.state.seen_comments
  · rw [stepComment_of_mem h]
  · rw [stepComment_seen_of_not_mem h]
    exact Finset.subset_insert _ _

lemma stepComment_seen_subset :
    (stepComment sink acc cid).state.seen_comments ⊆ insert cid acc.state.seen_comments := by
  by_cases h : cid ∈ acc.state.seen_comments
  · rw [stepComment_of_mem h]
    exact Finset.subset_insert _ _
  · rw [stepComment_seen_of_not_mem h]

lemma stepComment_attempts_mono {x : Int} (hx : x ∈ acc.attempts) :
    x ∈ (stepComment sink acc cid).attempts := by
  rcases stepComment_attempts_cases sink acc cid with h | ⟨h, -, -⟩ <;>
    simp [h, hx]

lemma stepComment_count_filter
    (hcount : acc.newCount = (acc.attempts.filter sink).length) :
    (stepComment sink acc cid).newCount =
      ((stepComment sink acc cid).attempts.filter sink).length := by
  unfold stepComment
  by_cases h : cid ∈ acc.state.seen_comments
  · simp [h, hcount]
  · by_cases hf : acc.state.is_first_run
    · simp [h, hf, hcount]
    · by_cases hs : sink cid <;>
        simp [h, hf, hs, hcount, List.filter_append]

lemma stepComment_nodup_sub
    (hn : acc.attempts.Nodup)
    (hsub : ∀ a ∈ acc.attempts, a ∈ acc.state.seen_comments) :
    (stepComment sink acc cid).attempts.Nodup ∧
      ∀ a ∈ (stepComment sink acc cid).attempts,
        a ∈ (stepComment sink acc cid).state.seen_comments := by
  rcases stepComment_attempts_cases sink acc cid with h | ⟨h, hmem, -⟩
  · rw [h]
    exact ⟨hn, fun a ha => stepComment_seen_mono (hsub a ha)⟩
  · rw [h]
    constructor
    · refine List.Nodup.append hn (List.nodup_singleton cid) ?_
      intro a ha hb
      rcases List.mem_singleton.mp hb with rfl
      exact hmem (hsub a ha)
    · intro a ha
      rcases List.mem_append.mp ha with ha | ha
      · exact stepComment_seen_mono (hsub a ha)
      · rcases List.mem_singleton.mp ha with rfl
        rw [stepComment_seen_of_not_mem hmem]
        exact Finset.mem_insert_self _ _

lemma stepComment_mem_not_attempted {c : Int}
    (hseen : c ∈ acc.state.seen_comments) (hatt : c ∉ acc.attempts) :
    c ∈ (stepComment sink acc cid).state.seen_comments ∧
      c ∉ (stepComment sink acc cid).attempts := by
  refine ⟨stepComment_seen_mono hseen, ?_⟩
  rcases stepComment_attempts_cases sink acc cid with h | ⟨h, hmem, -⟩
  · rw [h]; exact hatt
  · rw [h]
    intro hc
    rcases List.mem_append.mp hc with hc | hc
    · exact hatt hc
    · rcases List.mem_singleton.mp hc with rfl
      exact hmem hseen

lemma stepComment_first_run_frame
    (hf : acc.state.is_first_run = true)
    (ha : acc.attempts = []) (hc : acc.newCount = 0) :
    (stepComment sink acc cid).state.is_first_run = true ∧
      (stepComment sink acc cid).attempts = [] ∧
      (stepComment sink acc cid).newCount = 0 := by
  unfold stepComment
  by_cases h : cid ∈ acc.state.seen_comments <;> simp [h, hf, ha, hc]

end StepLemmas

/-! ### Lemmas about one post's comment loop -/

section PostLemmas

variable {sink : Int → Bool}

lemma processPost_cons (acc : CycleOutput) (cid : Int) (rest : List Int) :
    processPost sink acc (cid :: rest) = processPost sink (stepComment sink acc cid) rest := rfl

lemma processPost_nil (acc : CycleOutput) : processPost sink acc [] = acc := rfl

lemma processPost_inv (P : CycleOutput → Prop)
    (hstep : ∀ acc cid, P acc → P (stepComment sink acc cid)) :
    ∀ (comments : List Int) (acc : CycleOutput), P acc → P (processPost sink acc comments) := by
  intro comments
  induction comments with
  | nil => exact fun acc h => h
  | cons cid rest ih =>
    intro acc h
    rw [processPost_cons]
    exact ih _ (hstep acc cid h)

lemma processPost_is_first_run (comments : List Int) (acc : CycleOutput) :
    (processPost sink acc comments).state.is_first_run = acc.state.is_first_run :=
  processPost_inv (fun b => b.state.is_first_run = acc.state.is_first_run)
    (fun b cid hb => (stepComment_is_first_run sink b cid).trans hb) comments acc rfl

lemma processPost_seen_mono (comments : List Int) (acc : CycleOutput) :
    acc.state.seen_comments ⊆ (processPost sink acc comments).state.seen_comments :=
  processPost_inv (fun b => acc.state.seen_comments ⊆ b.state.seen_comments)
    (fun _ _ hb => hb.trans stepComment_seen_mono) comments acc (Finset.Subset.refl _)

lemma processPost_attempts_mono (comments : List Int) (acc : CycleOutput) {x : Int}
    (hx : x ∈ acc.attempts) : x ∈ (processPost sink acc comments).attempts :=
  processPost_inv (fun b => x ∈ b.attempts)
    (fun _ _ hb => stepComment_attempts_mono hb) comments acc hx

lemma processPost_seen_subset (comments : List Int) (acc : CycleOutput) :
    (processPost sink acc comments).state.seen_comments ⊆
      acc.state.seen_comments ∪ comments.toFinset := by
  induction comments generalizing acc with
  | nil => simp [processPost_nil]
  | cons cid rest ih =>
    rw [processPost_cons]
    refine (ih _).trans ?_
    intro x hx
    rcases Finset.mem_union.mp hx with hx | hx
    · have := @stepComment_seen_subset sink acc cid x hx
      rcases Finset.mem_insert.mp this with rfl | hx2
      · simp
      · exact Finset.mem_union_left _ hx2
    · simp only [List.toFinset_cons]
      exact Finset.mem_union_right _ (Finset.mem_insert_of_mem hx)

lemma processPost_records (comments : List Int) (acc : CycleOutput) {cid : Int}
    (h : cid ∈ comments) : cid ∈ (processPost sink acc comments).state.seen_comments := by
  induction comments generalizing acc with
  | nil => cases h
  | cons a rest ih =>
    rw [processPost_cons]
    rcases List.mem_cons.mp h with rfl | h
    · refine processPost_seen_mono rest _ ?_
      by_cases hmem : cid ∈ acc.state.seen_comments
      · rw [stepComment_of_mem hmem]; exact hmem
      · rw [stepComment_seen_of_not_mem hmem]
        exact Finset.mem_insert_self _ _
    · exact ih _ h

lemma processPost_skip (comments : List Int) (acc : CycleOutput)
    (h : ∀ cid ∈ comments, cid ∈ acc.state.seen_comments) :
    processPost sink acc comments = acc := by
  induction comments with
  | nil => rfl
  | cons a rest ih =>
    rw [processPost_cons, stepComment_of_mem (h a (List.mem_cons_self a rest))]
    exact ih fun cid hc => h cid (List.mem_cons_of_mem a hc)

lemma processPost_attempted (comments : List Int) (acc : CycleOutput) {cid : Int}
    (hf : acc.state.is_first_run = false) (h : cid ∈ comments)
    (hnew : cid ∉ acc.state.seen_comments) :
    cid ∈ (processPost sink acc comments).attempts := by
  induction comments generalizing acc with
  | nil => cases h
  | cons a rest ih =>
    rw [processPost_cons]
    by_cases ha : a = cid
    · subst ha
      refine processPost_attempts_mono rest _ ?_
      rw [stepComment_attempts_of_not_mem_not_first hnew hf]
      simp
    · rcases List.mem_cons.mp h with rfl | h
      · exact absurd rfl ha
      · refine ih _ ((stepComment_is_first_run sink acc a).trans hf) h ?_
        intro hc
        have := @stepComment_seen_subset sink acc a cid hc
        rcases Finset.mem_insert.mp this with rfl | hc2
        · exact ha rfl
        · exact hnew hc2

lemma processPost_count_filter (comments : List Int) (acc : CycleOutput)
    (h : acc.newCount = (acc.attempts.filter sink).length) :
    (processPost sink acc comments).newCount =
      ((processPost sink acc comments).attempts.filter sink).length :=
  processPost_inv (fun b => b.newCount = (b.attempts.filter sink).length)
    (fun _ _ hb => stepComment_count_filter hb) comments acc h

lemma processPost_nodup_sub (comments : List Int) (acc : CycleOutput)
    (hn : acc.attempts.Nodup)
    (hsub : ∀ a ∈ acc.attempts, a ∈ acc.state.seen_comments) :
    (processPost sink acc comments).attempts.Nodup ∧
      ∀ a ∈ (processPost sink acc comments).attempts,
        a ∈ (processPost sink acc comments).state.seen_comments :=
  processPost_inv (fun b => b.attempts.Nodup ∧ ∀ a ∈ b.attempts, a ∈ b.state.seen_comments)
    (fun _ _ hb => stepComment_nodup_sub hb.1 hb.2) comments acc ⟨hn, hsub⟩

lemma processPost_mem_not_attempted (comments : List Int) (acc : CycleOutput) {c : Int}
    (hseen : c ∈ acc.state.seen_comments) (hatt : c ∉ acc.attempts) :
    c ∈ (processPost sink acc comments).state.seen_comments ∧
      c ∉ (processPost sink acc comments).attempts :=
  processPost_inv (fun b => c ∈ b.state.seen_comments ∧ c ∉ b.attempts)
    (fun _ _ hb => stepComment_mem_not_attempted hb.1 hb.2) comments acc ⟨hseen, hatt⟩

lemma processPost_first_run_frame (comments : List Int) (acc : CycleOutput)
    (hf : acc.state.is_first_run = true)
    (ha : acc.attempts = []) (hc : acc.newCount = 0) :
    (processPost sink acc comments).state.is_first_run = true ∧
      (processPost sink acc comments).attempts = [] ∧
      (processPost sink acc comments).newCount = 0 :=
  processPost_inv
    (fun b => b.state.is_first_run = true ∧ b.attempts = [] ∧ b.newCount = 0)
    (fun _ _ hb => stepComment_first_run_frame hb.1 hb.2.1 hb.2.2) comments acc ⟨hf, ha, hc⟩

end PostLemmas

/-! ### Lemmas about the whole comment-enumeration phase -/

section AllPostsLemmas

variable {sink : Int → Bool}

lemma foldPosts_cons (acc : CycleOutput) (cs : List Int) (rest : List (List Int)) :
    (cs :: rest).foldl (processPost sink) acc = rest.foldl (processPost sink) (processPost sink acc cs) := rfl

lemma foldPosts_inv (P : CycleOutput → Prop)
    (hstep : ∀ acc cs, P acc → P (processPost sink acc cs)) :
    ∀ (posts : List (List Int)) (acc : CycleOutput), P acc → P (posts.foldl (processPost sink) acc) := by
  intro posts
  induction posts with
  | nil => exact fun acc h => h
  | cons cs rest ih =>
    intro acc h
    rw [foldPosts_cons]
    exact ih _ (hstep acc cs h)

lemma processAllPosts_def (s : MonitorState) (posts : List (List Int)) :
    processAllPosts sink s posts = posts.foldl (processPost sink) ⟨s, [], 0⟩ := rfl

lemma processAllPosts_is_first_run (s : MonitorState) (posts : List (List Int)) :
    (processAllPosts sink s posts).state.is_first_run = s.is_first_run :=
  foldPosts_inv (fun b => b.state.is_first_run = s.is_first_run)
    (fun b cs hb => (processPost_is_first_run cs b).trans hb) posts ⟨s, [], 0⟩ rfl

lemma processAllPosts_seen_mono (s : MonitorState) (posts : List (List Int)) :
    s.seen_comments ⊆ (processAllPosts sink s posts).state.seen_comments :=
  foldPosts_inv (fun b => s.seen_comments ⊆ b.state.seen_comments)
    (fun b cs hb => hb.trans (processPost_seen_mono cs b)) posts ⟨s, [], 0⟩
    (Finset.Subset.refl _)

lemma processAllPosts_records (s : MonitorState) (posts : List (List Int)) {cs : List Int}
    {cid : Int} (hcs : cs ∈ posts) (hcid : cid ∈ cs) :
    cid ∈ (processAllPosts sink s posts).state.seen_comments := by
  rw [processAllPosts_def]
  generalize (⟨s, [], 0⟩ : CycleOutput) = acc
  induction posts generalizing acc with
  | nil => cases hcs
  | cons hd rest ih =>
    rw [foldPosts_cons]
    rcases List.mem_cons.mp hcs with heq | hcs
    · exact foldPosts_inv (fun b => cid ∈ b.state.seen_comments)
        (fun b cs2 hb => processPost_seen_mono cs2 b hb) rest _
        (processPost_records hd acc (heq ▸ hcid))
    · exact ih hcs _

lemma processAllPosts_skip (s : MonitorState) (posts : List (List Int))
    (h : ∀ cs ∈ posts, ∀ cid ∈ cs, cid ∈ s.seen_comments) :
    processAllPosts sink s posts = ⟨s, [], 0⟩ := by
  rw [processAllPosts_def]
  have : ∀ (acc : CycleOutput), acc.state.seen_comments = s.seen_comments →
      posts.foldl (processPost sink) acc = acc := by
    induction posts with
    | nil => intro acc _; rfl
    | cons hd rest ih =>
      intro acc hacc
      rw [foldPosts_cons, processPost_skip hd acc (fun cid hc => hacc ▸ h hd (List.mem_cons_self hd rest) cid hc)]
      exact ih (fun cs hcs cid hc => h cs (List.mem_cons_of_mem hd hcs) cid hc) acc hacc
  exact this _ rfl

lemma processAllPosts_attempted (s : MonitorState) (posts : List (List Int))
    {cs : List Int} {cid : Int}
    (hf : s.is_first_run = false) (hcs : cs ∈ posts) (hcid : cid ∈ cs)
    (hnew : cid ∉ s.seen_comments) :
    cid ∈ (processAllPosts sink s posts).attempts := by
  rw [processAllPosts_def]
  have main : ∀ (posts : List (List Int)) (acc : CycleOutput),
      acc.state.is_first_run = false → cs ∈ posts → cid ∉ acc.state.seen_comments →
      cid ∈ (posts.foldl (processPost sink) acc).attempts := by
    intro posts
    induction posts with
    | nil => intro acc _ hcs _; cases hcs
    | cons hd rest ih =>
      intro acc haccf hmem hnew2
      rw [foldPosts_cons]
      by_cases hin : cid ∈ hd
      · exact foldPosts_inv (fun b => cid ∈ b.attempts)
          (fun b cs2 hb => processPost_attempts_mono cs2 b hb) rest _
          (processPost_attempted hd acc haccf hin hnew2)
      · rcases List.mem_cons.mp hmem with rfl | hmem
        · exact absurd hcid hin
        · refine ih _ ((processPost_is_first_run hd acc).trans haccf) hmem ?_
          intro hc
          rcases Finset.mem_union.mp (processPost_seen_subset hd acc hc) with hc | hc
          · exact hnew2 hc
          · exact hin (List.mem_toFinset.mp hc)
  exact main posts ⟨s, [], 0⟩ hf hcs hnew

lemma processAllPosts_count_filter (s : MonitorState) (posts : List (List Int)) :
    (processAllPosts sink s posts).newCount =
      ((processAllPosts sink s posts).attempts.filter sink).length :=
  foldPosts_inv (fun b => b.newCount = (b.attempts.filter sink).length)
    (fun b cs hb => processPost_count_filter cs b hb) posts ⟨s, [], 0⟩ rfl

lemma processAllPosts_nodup_sub (s : MonitorState) (posts : List (List Int)) :
    (processAllPosts sink s posts).attempts.Nodup ∧
      ∀ a ∈ (processAllPosts sink s posts).attempts,
        a ∈ (processAllPosts sink s posts).state.seen_comments :=
  foldPosts_inv (fun b => b.attempts.Nodup ∧ ∀ a ∈ b.attempts, a ∈ b.state.seen_comments)
    (fun b cs hb => processPost_nodup_sub cs b hb.1 hb.2) posts ⟨s, [], 0⟩
    ⟨List.nodup_nil, by simp⟩

lemma processAllPosts_mem_not_attempted (s : MonitorState) (posts : List (List Int))
    {c : Int} (hseen : c ∈ s.seen_comments) :
    c ∈ (processAllPosts sink s posts).state.seen_comments ∧
      c ∉ (processAllPosts sink s posts).attempts :=
  foldPosts_inv (fun b => c ∈ b.state.seen_comments ∧ c ∉ b.attempts)
    (fun b cs hb => processPost_mem_not_attempted cs b hb.1 hb.2) posts ⟨s, [], 0⟩
    ⟨hseen, by simp⟩

lemma processAllPosts_first_run_frame (s : MonitorState) (posts : List (List Int))
    (hf : s.is_first_run = true) :
    (processAllPosts sink s posts).attempts = [] ∧
      (processAllPosts sink s posts).newCount = 0 :=
  (foldPosts_inv
    (fun b => b.state.is_first_run = true ∧ b.attempts = [] ∧ b.newCount = 0)
    (fun b cs hb => processPost_first_run_frame cs b hb.1 hb.2.1 hb.2.2) posts ⟨s, [], 0⟩
    ⟨hf, rfl, rfl⟩).2

end AllPostsLemmas

/-! ### Lemmas about one full cycle and about runs of cycles -/

section CycleLemmas

variable {cacheLimit : Nat} {sink : Int → Bool} {s : MonitorState} {posts : List (List Int)}

lemma isEmpty_false_of_ne_nil {α : Type} {l : List α} (h : l ≠ []) : l.isEmpty = false := by
  cases l with
  | nil => exact absurd rfl h
  | cons a t => rfl

lemma process_comments_nil (cacheLimit : Nat) (sink : Int → Bool) (s : MonitorState) :
    process_comments cacheLimit sink s [] = ⟨s, [], 0⟩ := rfl

lemma process_comments_attempts (hne : posts ≠ []) :
    (process_comments cacheLimit sink s posts).attempts =
      (processAllPosts sink s posts).attempts := by
  simp [process_comments, isEmpty_false_of_ne_nil hne]

lemma process_comments_newCount (hne : posts ≠ []) :
    (process_comments cacheLimit sink s posts).newCount =
      (processAllPosts sink s posts).newCount := by
  simp [process_comments, isEmpty_false_of_ne_nil hne]

lemma process_comments_seen_eq (hne : posts ≠ []) :
    (process_comments cacheLimit sink s posts).state.seen_comments =
      if (processAllPosts sink s posts).state.seen_comments.card > cacheLimit then ∅
      else (processAllPosts sink s posts).state.seen_comments := by
  simp only [process_comments, isEmpty_false_of_ne_nil hne, Bool.false_eq_true, if_false]
  by_cases hf : (processAllPosts sink s posts).state.is_first_run <;>
    by_cases hc : (processAllPosts sink s posts).state.seen_comments.card > cacheLimit <;>
      simp [hf, hc]

lemma process_comments_first_run_false (hne : posts ≠ []) :
    (process_comments cacheLimit sink s posts).state.is_first_run = false := by
  simp only [process_comments, isEmpty_false_of_ne_nil hne, Bool.false_eq_true, if_false]
  by_cases hf : (processAllPosts sink s posts).state.is_first_run <;>
    simp only [hf, if_true, if_false] <;>
    by_cases hc : cacheLimit < (processAllPosts sink s posts).state.seen_comments.card <;>
    simp [hc, hf]

lemma process_comments_first_run_of_empty (hf : s.is_first_run = true) :
    (process_comments cacheLimit sink s []).state.is_first_run = true := by
  rw [process_comments_nil]; exact hf

lemma process_comments_card_le (h : s.seen_comments.card ≤ cacheLimit) :
    (process_comments cacheLimit sink s posts).state.seen_comments.card ≤ cacheLimit := by
  by_cases hne : posts = []
  · subst hne; rw [process_comments_nil]; exact h
  · rw [process_comments_seen_eq hne]
    by_cases hc : (processAllPosts sink s posts).state.seen_comments.card > cacheLimit
    · simp [hc]
    · simp only [hc, if_false]
      exact Nat.le_of_not_lt hc

lemma process_comments_attempts_nodup :
    (process_comments cacheLimit sink s posts).attempts.Nodup := by
  by_cases hne : posts = []
  · subst hne; rw [process_comments_nil]; exact List.nodup_nil
  · rw [process_comments_attempts hne]
    exact (processAllPosts_nodup_sub s posts).1

lemma process_comments_not_attempted {c : Int} (hseen : c ∈ s.seen_comments) :
    c ∉ (process_comments cacheLimit sink s posts).attempts := by
  by_cases hne : posts = []
  · subst hne; rw [process_comments_nil]; exact List.not_mem_nil c
  · rw [process_comments_attempts hne]
    exact (processAllPosts_mem_not_attempted s posts hseen).2

lemma process_comments_count_filter :
    (process_comments cacheLimit sink s posts).newCount =
      ((process_comments cacheLimit sink s posts).attempts.filter sink).length := by
  by_cases hne : posts = []
  · subst hne; rw [process_comments_nil]; rfl
  · rw [process_comments_attempts hne, process_comments_newCount hne]
    exact processAllPosts_count_filter s posts

lemma runCycles_nil (cacheLimit : Nat) (s : MonitorState) :
    runCycles cacheLimit s [] = (s, []) := rfl

lemma runCycles_cons (cacheLimit : Nat) (s : MonitorState) (posts : List (List Int))
    (sink : Int → Bool) (rest : List (List (List Int) × (Int → Bool))) :
    runCycles cacheLimit s ((posts, sink) :: rest) =
      ((runCycles cacheLimit (process_comments cacheLimit sink s posts).state rest).1,
        (process_comments cacheLimit sink s posts).attempts ++
          (runCycles cacheLimit (process_comments cacheLimit sink s posts).state rest).2) := rfl

lemma statesAfter_cons (cacheLimit : Nat) (s : MonitorState) (posts : List (List Int))
    (sink : Int → Bool) (rest : List (List (List Int) × (Int → Bool))) :
    statesAfter cacheLimit s ((posts, sink) :: rest) =
      (process_comments cacheLimit sink s posts).state ::
        statesAfter cacheLimit (process_comments cacheLimit sink s posts).state rest := rfl

/-- Core persistence lemma: a comment identifier in the seen-set is never the
subject of a delivery attempt in any following cycle, as long as it stays in
the seen-set at every cycle boundary of the run. -/
lemma runCycles_not_attempted (cacheLimit : Nat) (c : Int) :
    ∀ (cycles : List (List (List Int) × (Int → Bool))) (s : MonitorState),
      c ∈ s.seen_comments →
      (∀ st ∈ statesAfter cacheLimit s cycles, c ∈ st.seen_comments) →
      c ∉ (runCycles cacheLimit s cycles).2 := by
  intro cycles
  induction cycles with
  | nil =>
    intro s _ _ h
    rw [runCycles_nil] at h
    exact List.not_mem_nil c h
  | cons p rest ih =>
    intro s hseen hstay
    obtain ⟨posts, sink⟩ := p
    rw [runCycles_cons]
    intro hmem
    rcases List.mem_append.mp hmem with hmem | hmem
    · exact process_comments_not_attempted hseen hmem
    · have hnext : c ∈ (process_comments cacheLimit sink s posts).state.seen_comments := by
        refine hstay _ ?_
        rw [statesAfter_cons]
        exact List.mem_cons_self _ _
      have htail : ∀ st ∈ statesAfter cacheLimit
          (process_comments cacheLimit sink s posts).state rest, c ∈ st.seen_comments := by
        intro st hst
        refine hstay st ?_
        rw [statesAfter_cons]
        exact List.mem_cons_of_mem _ hst
      exact ih _ hnext htail hmem

/-- The cache-ceiling invariant propagates along any run of cycles. -/
lemma statesAfter_card_le (cacheLimit : Nat) :
    ∀ (cycles : List (List (List Int) × (Int → Bool))) (s : MonitorState),
      s.seen_comments.card ≤ cacheLimit →
      ∀ st ∈ statesAfter cacheLimit s cycles, st.seen_comments.card ≤ cacheLimit := by
  intro cycles
  induction cycles with
  | nil => intro s _ st hst; cases hst
  | cons p rest ih =>
    intro s hcard st hst
    obtain ⟨posts, sink⟩ := p
    rw [statesAfter_cons] at hst
    rcases List.mem_cons.mp hst with heq | hst
    · rw [heq]; exact process_comments_card_le hcard
    · exact ih _ (process_comments_card_le hcard) st hst

end CycleLemmas

/-! ### The Telegram sink: `send_telegram_message` (monitor.py lines 303-342) -/

/-- The outcome of one HTTP attempt inside `send_telegram_message`: the
request succeeds, the remote channel answers 429 (rate limit, the code
sleeps and continues), or the request raises (the code logs, sleeps if
attempts remain, and continues). -/
inductive TgOutcome where
  | success
  | rateLimited
  | err
deriving DecidableEq

/-- The retry loop of `send_telegram_message`, parameterised by the outcome
of each attempt (attempt indices count from `i`).  Returns the boolean
result together with the number of attempts actually made.  A success
returns True immediately; a rate-limit response or an exception consumes the
attempt and continues; falling off the loop returns False. -/
def sendAttemptLoop (outcome : Nat → TgOutcome) : Nat → Nat → Bool × Nat
  | _, 0 => (false, 0)
  | i, n + 1 =>
    match outcome i with
    | TgOutcome.success => (true, 1)
    | TgOutcome.rateLimited =>
      let r := sendAttemptLoop outcome (i + 1) n
      (r.1, r.2 + 1)
    | TgOutcome.err =>
      let r := sendAttemptLoop outcome (i + 1) n
      (r.1, r.2 + 1)

/-- `send_telegram_message` with its attempt budget `retry_count` (whose
Python default is 3): the retry loop started at attempt 0. -/
def send_telegram_message (outcome : Nat → TgOutcome) (retry_count : Nat) : Bool × Nat :=
  sendAttemptLoop outcome 0 retry_count

section SendLemmas

variable {outcome : Nat → TgOutcome}

lemma sendAttemptLoop_le (outcome : Nat → TgOutcome) :
    ∀ (n i : Nat), (sendAttemptLoop outcome i n).2 ≤ n := by
  intro n
  induction n with
  | zero => intro i; exact Nat.le_refl 0
  | succ n ih =>
    intro i
    unfold sendAttemptLoop
    cases houtcome : outcome i with
    | success => exact Nat.succ_le_succ (Nat.zero_le n)
    | rateLimited => exact Nat.succ_le_succ (ih (i + 1))
    | err => exact Nat.succ_le_succ (ih (i + 1))

lemma sendAttemptLoop_pos (outcome : Nat → TgOutcome) :
    ∀ (n i : Nat), 0 < n → 1 ≤ (sendAttemptLoop outcome i n).2 := by
  intro n i hn
  match n, hn with
  | n + 1, _ =>
    unfold sendAttemptLoop
    cases houtcome : outcome i with
    | success => exact Nat.le_refl 1
    | rateLimited => exact Nat.succ_le_succ (Nat.zero_le _)
    | err => exact Nat.succ_le_succ (Nat.zero_le _)

lemma sendAttemptLoop_true_iff (outcome : Nat → TgOutcome) :
    ∀ (n i : Nat), (sendAttemptLoop outcome i n).1 = true ↔
      ∃ j, j < n ∧ outcome (i + j) = TgOutcome.success := by
  intro n
  induction n with
  | zero =>
    intro i
    simp [sendAttemptLoop]
  | succ n ih =>
    intro i
    unfold sendAttemptLoop
    cases houtcome : outcome i with
    | success =>
      simp only [true_iff]
      exact ⟨0, Nat.succ_pos n, by simpa using houtcome⟩
    | rateLimited =>
      simp only []
      rw [ih (i + 1)]
      constructor
      · rintro ⟨j, hj, hsj⟩
        exact ⟨j + 1, Nat.succ_lt_succ hj, by
          have : i + 1 + j = i + (j + 1) := by omega
          rw [← this]; exact hsj⟩
      · rintro ⟨j, hj, hsj⟩
        cases j with
        | zero => rw [Nat.add_zero] at hsj; rw [houtcome] at hsj; cases hsj
        | succ j =>
          refine ⟨j, Nat.lt_of_succ_lt_succ hj, ?_⟩
          have : i + 1 + j = i + (j + 1) := by omega
          rw [this]; exact hsj
    | err =>
      simp only []
      rw [ih (i + 1)]
      constructor
      · rintro ⟨j, hj, hsj⟩
        exact ⟨j + 1, Nat.succ_lt_succ hj, by
          have : i + 1 + j = i + (j + 1) := by omega
          rw [← this]; exact hsj⟩
      · rintro ⟨j, hj, hsj⟩
        cases j with
        | zero => rw [Nat.add_zero] at hsj; rw [houtcome] at hsj; cases hsj
        | succ j =>
          refine ⟨j, Nat.lt_of_succ_lt_succ hj, ?_⟩
          have : i + 1 + j = i + (j + 1) := by omega
          rw [this]; exact hsj

lemma sendAttemptLoop_continues (outcome : Nat → TgOutcome) :
    ∀ (m n i : Nat), (∀ j, j ≤ m → outcome (i + j) ≠ TgOutcome.success) →
      m + 1 < n → m + 2 ≤ (sendAttemptLoop outcome i n).2 := by
  intro m
  induction m with
  | zero =>
    intro n i hns hn
    match n, hn with
    | n + 1, hn =>
      unfold sendAttemptLoop
      cases houtcome : outcome i with
      | success => exact absurd (by simpa using houtcome) (hns 0 (Nat.le_refl 0))
      | rateLimited =>
        exact Nat.succ_le_succ (sendAttemptLoop_pos outcome n (i + 1) (by omega))
      | err =>
        exact Nat.succ_le_succ (sendAttemptLoop_pos outcome n (i + 1) (by omega))
  | succ m ih =>
    intro n i hns hn
    match n, hn with
    | n + 1, hn =>
      unfold sendAttemptLoop
      cases houtcome : outcome i with
      | success => exact absurd (by simpa using houtcome) (hns 0 (Nat.zero_le _))
      | rateLimited =>
        refine Nat.succ_le_succ (ih n (i + 1) ?_ (by omega))
        intro j hj
        have : i + 1 + j = i + (j + 1) := by omega
        rw [this]
        exact hns (j + 1) (Nat.succ_le_succ hj)
      | err =>
        refine Nat.succ_le_succ (ih n (i + 1) ?_ (by omega))
        intro j hj
        have : i + 1 + j = i + (j + 1) := by omega
        rw [this]
        exact hns (j + 1) (Nat.succ_le_succ hj)

end SendLemmas

/-! ### The author-enrichment step of `get_post_comments`
(monitor.py lines 188-228) -/

/-- A raw comment record as returned by `wall.getComments`: the identifier
and the optional `from_id` field (`comment.get('from_id')` yields None when
the key is absent). -/
structure RawComment where
  id : Int
  from_id : Option Int
deriving DecidableEq

/-- A comment enriched with its denormalized author record.  `author_info`
is `none` when the profile/group lookup falls back to the empty default
record. -/
structure EnrichedComment where
  id : Int
  from_id : Int
  author_info : Option String
deriving DecidableEq

/-- The body of the enrichment loop for one comment: the Python code
evaluates `from_id > 0`; when `from_id` is None this comparison raises a
TypeError (modelled as an `error` value), otherwise the author record is
looked up among user profiles for positive `from_id` and among groups (by
absolute value) otherwise. -/
def enrichComment (profiles groups : Int → Option String) (c : RawComment) :
    Except String EnrichedComment :=
  match c.from_id with
  | none => Except.error "TypeError: '>' not supported between instances of 'NoneType' and 'int'"
  | some fid =>
    if fid > 0 then Except.ok ⟨c.id, fid, profiles fid⟩
    else Except.ok ⟨c.id, fid, groups |fid|⟩

/-- The enrichment loop of `get_post_comments` over the fetched comment
list: comments are enriched in order and a raised TypeError aborts the
whole fetch, propagating as an `error` value. -/
def get_post_comments (profiles groups : Int → Option String) :
    List RawComment → Except String (List EnrichedComment)
  | [] => Except.ok []
  | c :: cs =>
    match enrichComment profiles groups c with
    | Except.error e => Except.error e
    | Except.ok ec =>
      match get_post_comments profiles groups cs with
      | Except.error e => Except.error e
      | Except.ok ecs => Except.ok (ec :: ecs)

/-- An attempt-outcome oracle used to exercise the retry contract of
`send_telegram_message`: the first attempt is rate limited, every later
attempt succeeds. -/
def tgOutcomeEx : Nat → TgOutcome :=
  fun i => if i = 0 then TgOutcome.rateLimited else TgOutcome.success

/-! ## The claims -/

/-- C7: if the source adapter returns zero posts, the cycle is a no-op —
`process_comments` returns early, so the seen-set, the first-run flag and
the counters are exactly as they were at cycle start, and no delivery is
attempted. -/
theorem empty_post_list_is_noop (cacheLimit : Nat) (sink : Int → Bool) (s : MonitorState) :
    process_comments cacheLimit sink s [] =
      ⟨s, [], 0⟩ :=
  rfl

/-- C2: while `is_first_run` is true, a run of `process_comments` records
every fetched comment identifier into the seen-set and attempts zero
deliveries, and the bootstrap cycle of Scenario A (3 posts with 2, 0 and 5
comments) ends with seen-set size 7, zero deliveries and the flag lowered. -/
theorem bootstrap_suppresses_deliveries (cacheLimit : Nat) (sink : Int → Bool)
    (s : MonitorState) (posts : List (List Int)) (hf : s.is_first_run = true) :
    (process_comments cacheLimit sink s posts).attempts = [] ∧
    (process_comments cacheLimit sink s posts).newCount = 0 ∧
    (∀ cs ∈ posts, ∀ cid ∈ cs, cid ∈ (processAllPosts sink s posts).state.seen_comments) ∧
    ((process_comments 1000 (fun _ => true) ⟨∅, true⟩
        [[1, 2], [], [3, 4, 5, 6, 7]]).state.seen_comments.card = 7 ∧
      (process_comments 1000 (fun _ => true) ⟨∅, true⟩
        [[1, 2], [], [3, 4, 5, 6, 7]]).attempts = [] ∧
      (process_comments 1000 (fun _ => true) ⟨∅, true⟩
        [[1, 2], [], [3, 4, 5, 6, 7]]).newCount = 0 ∧
      (process_comments 1000 (fun _ => true) ⟨∅, true⟩
        [[1, 2], [], [3, 4, 5, 6, 7]]).state.is_first_run = false) := by
  refine ⟨?_, ?_, ?_, by decide, by decide, by decide, by decide⟩
  · by_cases hne : posts = []
    · subst hne; rw [process_comments_nil]
    · rw [process_comments_attempts hne]
      exact (processAllPosts_first_run_frame s posts hf).1
  · by_cases hne : posts = []
    · subst hne; rw [process_comments_nil]
    · rw [process_comments_newCount hne]
      exact (processAllPosts_first_run_frame s posts hf).2
  · intro cs hcs cid hcid
    exact processAllPosts_records s posts hcs hcid

/-- C2 witness: Scenario A evaluated concretely through the theorem. -/
theorem bootstrap_suppresses_deliveries_witness :
    (process_comments 1000 (fun _ => true) ⟨∅, true⟩
        [[1, 2], [], [3, 4, 5, 6, 7]]).attempts = [] ∧
    (process_comments 1000 (fun _ => true) ⟨∅, true⟩
        [[1, 2], [], [3, 4, 5, 6, 7]]).state.seen_comments.card = 7 ∧
    (process_comments 1000 (fun _ => true) ⟨∅, true⟩
        [[1, 2], [], [3, 4, 5, 6, 7]]).state.is_first_run = false := by
  have h := bootstrap_suppresses_deliveries 1000 (fun _ => true) ⟨∅, true⟩
    [[1, 2], [], [3, 4, 5, 6, 7]] rfl
  exact ⟨h.1, h.2.2.2.1, h.2.2.2.2.2.2⟩

/-- C3 counterexample: the claim asserts the first-run flag is lowered at
the end of the first cycle even when that cycle fetches zero posts; in the
code a zero-post cycle returns before the flag update, so the flag is still
raised afterwards. -/
theorem first_run_flag_survives_empty_cycle :
    (process_comments 1000 (fun _ => true) ⟨∅, true⟩ []).state.is_first_run = true :=
  rfl

/-- C3 amended: a cycle fetching zero posts leaves the whole state (the
flag included) unchanged, and every cycle fetching at least one post ends
with the first-run flag false — so the true-to-false transition happens
exactly once, at the end of the first cycle that fetches a nonempty post
list, and the flag never becomes true again. -/
theorem first_run_flag_transition (cacheLimit : Nat) (sink : Int → Bool)
    (s : MonitorState) (posts : List (List Int)) :
    (posts = [] → (process_comments cacheLimit sink s posts).state = s) ∧
    (posts ≠ [] → (process_comments cacheLimit sink s posts).state.is_first_run = false) := by
  constructor
  · intro h; subst h; rw [process_comments_nil]
  · intro hne; exact process_comments_first_run_false hne

/-- C3 amended witness: the transition at a concrete nonempty first cycle,
and the frame on a concrete empty one. -/
theorem first_run_flag_transition_witness :
    (process_comments 5 (fun _ => true) ⟨∅, true⟩ []).state = ⟨∅, true⟩ ∧
    (process_comments 5 (fun _ => true) ⟨∅, true⟩ [[1]]).state.is_first_run = false := by
  constructor
  · exact (first_run_flag_transition 5 (fun _ => true) ⟨∅, true⟩ []).1 rfl
  · exact (first_run_flag_transition 5 (fun _ => true) ⟨∅, true⟩ [[1]]).2 (by decide)

/-- C4: the seen-set only grows during the comment enumeration (never a
mid-cycle clear); at cycle end, and only there, the whole seen-set is
cleared exactly when its cardinality strictly exceeds the ceiling; hence
along any run starting within the ceiling, every cycle-start state is
within the ceiling. -/
theorem cache_ceiling_clears_at_cycle_end (cacheLimit : Nat) (sink : Int → Bool)
    (s : MonitorState) (posts : List (List Int)) (hne : posts ≠ []) :
    s.seen_comments ⊆ (processAllPosts sink s posts).state.seen_comments ∧
    (process_comments cacheLimit sink s posts).state.seen_comments =
      (if (processAllPosts sink s posts).state.seen_comments.card > cacheLimit then ∅
       else (processAllPosts sink s posts).state.seen_comments) ∧
    (∀ cycles : List (List (List Int) × (Int → Bool)),
      s.seen_comments.card ≤ cacheLimit →
      ∀ st ∈ statesAfter cacheLimit s cycles, st.seen_comments.card ≤ cacheLimit) := by
  refine ⟨processAllPosts_seen_mono s posts, process_comments_seen_eq hne, ?_⟩
  intro cycles hcard st hst
  exact statesAfter_card_le cacheLimit cycles s hcard st hst

/-- C4 witness: Scenario E — ceiling 5, a cycle ending with 6 recorded
identifiers leaves the seen-set empty. -/
theorem cache_ceiling_clears_at_cycle_end_witness :
    (process_comments 5 (fun _ => true) ⟨∅, true⟩ [[1, 2, 3, 4, 5, 6]]).state.seen_comments
      = ∅ := by
  have h := (cache_ceiling_clears_at_cycle_end 5 (fun _ => true) ⟨∅, true⟩
    [[1, 2, 3, 4, 5, 6]] (by decide)).2.1
  rw [h]
  have hcard : (processAllPosts (fun _ => true) ⟨∅, true⟩
      [[1, 2, 3, 4, 5, 6]]).state.seen_comments.card = 6 := by decide
  rw [hcard]
  rfl

/-- C1: within any single cycle an identifier is the subject of at most one
delivery attempt, and once an identifier is in the seen-set, no later cycle
attempts a delivery for it for as long as it remains in the seen-set at
every cycle boundary — so at most one delivery attempt per identifier over
the remainder of the run. -/
theorem at_most_one_delivery_per_identifier (cacheLimit : Nat) (c : Int) :
    (∀ (sink : Int → Bool) (s : MonitorState) (posts : List (List Int)),
      (process_comments cacheLimit sink s posts).attempts.count c ≤ 1) ∧
    (∀ (s : MonitorState) (cycles : List (List (List Int) × (Int → Bool))),
      c ∈ s.seen_comments →
      (∀ st ∈ statesAfter cacheLimit s cycles, c ∈ st.seen_comments) →
      c ∉ (runCycles cacheLimit s cycles).2) := by
  constructor
  · intro sink s posts
    exact List.nodup_iff_count_le_one.mp process_comments_attempts_nodup c
  · intro s cycles hin hstay
    exact runCycles_not_attempted cacheLimit c cycles s hin hstay

/-- C1 witness: a duplicated fetch of one identifier yields at most one
attempt, and an identifier already in the seen-set is never attempted over
a concrete later run. -/
theorem at_most_one_delivery_per_identifier_witness :
    (process_comments 10 (fun _ => true) ⟨∅, false⟩ [[5, 5], [5]]).attempts.count 5 ≤ 1 ∧
    (5 : Int) ∉ (runCycles 10 ⟨{5}, false⟩ [([[5]], fun _ => true)]).2 := by
  have h := at_most_one_delivery_per_identifier 10 5
  exact ⟨h.1 (fun _ => true) ⟨∅, false⟩ [[5, 5], [5]],
    h.2 ⟨{5}, false⟩ [([[5]], fun _ => true)] (by decide) (by decide)⟩

/-- C5 counterexample: with ceiling 0, a new comment whose delivery fails
is attempted in the cycle, but the end-of-cycle ceiling check clears the
seen-set, so its identifier does not remain there and the next cycle
attempts its delivery again — against the claim that the identifier stays
in the seen-set and no later cycle re-attempts it. -/
theorem failed_delivery_reattempted_after_clear :
    (1 : Int) ∉ (⟨∅, false⟩ : MonitorState).seen_comments ∧
    (fun _ => false : Int → Bool) 1 = false ∧
    (1 : Int) ∈ (process_comments 0 (fun _ => false) ⟨∅, false⟩ [[1]]).attempts ∧
    (1 : Int) ∉ (process_comments 0 (fun _ => false) ⟨∅, false⟩ [[1]]).state.seen_comments ∧
    (1 : Int) ∈ (process_comments 0 (fun _ => false)
      (process_comments 0 (fun _ => false) ⟨∅, false⟩ [[1]]).state [[1]]).attempts := by
  decide

/-- C5 amended: when the sink fails for a new comment, the comment is
attempted exactly once; the counter counts exactly the successful
attempts, to which the failed one does not contribute; the identifier is
recorded in the seen-set; the cycle still records every other fetched
identifier; and as long as the end-of-cycle ceiling check does not clear
the cache, the identifier stays in the seen-set and no later cycle
attempts it again while it remains there. -/
theorem failed_delivery_not_retried (cacheLimit : Nat) (sink : Int → Bool)
    (s : MonitorState) (posts : List (List Int)) (c : Int) (cs : List Int)
    (hflag : s.is_first_run = false)
    (hnew : c ∉ s.seen_comments)
    (hfail : sink c = false)
    (hcs : cs ∈ posts) (hc : c ∈ cs) :
    c ∈ (process_comments cacheLimit sink s posts).attempts ∧
    (process_comments cacheLimit sink s posts).attempts.count c = 1 ∧
    (process_comments cacheLimit sink s posts).newCount =
      ((process_comments cacheLimit sink s posts).attempts.filter sink).length ∧
    c ∉ (process_comments cacheLimit sink s posts).attempts.filter sink ∧
    c ∈ (processAllPosts sink s posts).state.seen_comments ∧
    (∀ cs2 ∈ posts, ∀ d ∈ cs2, d ∈ (processAllPosts sink s posts).state.seen_comments) ∧
    ((processAllPosts sink s posts).state.seen_comments.card ≤ cacheLimit →
      c ∈ (process_comments cacheLimit sink s posts).state.seen_comments ∧
      ∀ cycles, (∀ st ∈ statesAfter cacheLimit
          (process_comments cacheLimit sink s posts).state cycles, c ∈ st.seen_comments) →
        c ∉ (runCycles cacheLimit (process_comments cacheLimit sink s posts).state cycles).2) := by
  have hne : posts ≠ [] := List.ne_nil_of_mem hcs
  have hatt : c ∈ (process_comments cacheLimit sink s posts).attempts := by
    rw [process_comments_attempts hne]
    exact processAllPosts_attempted s posts hflag hcs hc hnew
  have hinseen : c ∈ (process_comments cacheLimit sink s posts).state.seen_comments →
      ∀ cycles, (∀ st ∈ statesAfter cacheLimit
          (process_comments cacheLimit sink s posts).state cycles, c ∈ st.seen_comments) →
        c ∉ (runCycles cacheLimit (process_comments cacheLimit sink s posts).state cycles).2 :=
    fun hseen cycles hstay =>
      runCycles_not_attempted cacheLimit c cycles _ hseen hstay
  refine ⟨hatt,
    List.count_eq_one_of_mem process_comments_attempts_nodup hatt,
    process_comments_count_filter, ?_, ?_, ?_, ?_⟩
  · intro hmem
    exact Bool.false_ne_true (hfail ▸ (List.mem_filter.mp hmem).2)
  · exact processAllPosts_records s posts hcs hc
  · intro cs2 hcs2 d hd
    exact processAllPosts_records s posts hcs2 hd
  · intro hcard
    have hseen : c ∈ (process_comments cacheLimit sink s posts).state.seen_comments := by
      rw [process_comments_seen_eq hne, if_neg (Nat.not_lt.mpr hcard)]
      exact processAllPosts_records s posts hcs hc
    exact ⟨hseen, hinseen hseen⟩

/-- C5 witness: a concrete new comment whose delivery fails. -/
theorem failed_delivery_not_retried_witness :
    (5 : Int) ∈ (process_comments 10 (fun _ => false) ⟨∅, false⟩ [[5]]).attempts ∧
    (process_comments 10 (fun _ => false) ⟨∅, false⟩ [[5]]).newCount = 0 ∧
    (5 : Int) ∈ (process_comments 10 (fun _ => false) ⟨∅, false⟩ [[5]]).state.seen_comments := by
  have h := failed_delivery_not_retried 10 (fun _ => false) ⟨∅, false⟩ [[5]] 5 [5]
    rfl (by decide) rfl (by decide) (by decide)
  refine ⟨h.1, ?_, (h.2.2.2.2.2.2 (by decide)).1⟩
  rw [h.2.2.1]
  decide

/-- C6 counterexample: with ceiling 0 the first post-bootstrap run of the
cycle clears the seen-set at cycle end, so re-running it against the same
post/comment set delivers the same comment again — the second call yields
1 new delivery, not 0. -/
theorem rerun_after_ceiling_clear_redelivers :
    (process_comments 0 (fun _ => true)
      (process_comments 0 (fun _ => true) ⟨∅, false⟩ [[1]]).state [[1]]).newCount = 1 := by
  decide

/-- C6 amended: post-bootstrap, if the first run of the cycle does not
trigger the ceiling clear (its end-of-enumeration seen-set cardinality is
within the ceiling), re-running the cycle against the same post/comment set
yields zero new deliveries and no delivery attempt. -/
theorem rerun_same_input_no_deliveries (cacheLimit : Nat) (sink : Int → Bool)
    (s : MonitorState) (posts : List (List Int))
    (hflag : s.is_first_run = false)
    (hcard : (processAllPosts sink s posts).state.seen_comments.card ≤ cacheLimit) :
    (process_comments cacheLimit sink
        (process_comments cacheLimit sink s posts).state posts).newCount = 0 ∧
    (process_comments cacheLimit sink
        (process_comments cacheLimit sink s posts).state posts).attempts = [] := by
  by_cases hne : posts = []
  · subst hne
    rw [process_comments_nil, process_comments_nil]
    exact ⟨rfl, rfl⟩
  · have hseen : (process_comments cacheLimit sink s posts).state.seen_comments =
        (processAllPosts sink s posts).state.seen_comments := by
      rw [process_comments_seen_eq hne, if_neg (Nat.not_lt.mpr hcard)]
    have hall : ∀ cs ∈ posts, ∀ cid ∈ cs,
        cid ∈ (process_comments cacheLimit sink s posts).state.seen_comments := by
      intro cs hcs cid hcid
      rw [hseen]
      exact processAllPosts_records s posts hcs hcid
    have hskip := @processAllPosts_skip sink
      (process_comments cacheLimit sink s posts).state posts hall
    constructor
    · rw [process_comments_newCount hne, hskip]
    · rw [process_comments_attempts hne, hskip]

/-- C6 amended witness: a concrete idempotent re-run. -/
theorem rerun_same_input_no_deliveries_witness :
    (process_comments 10 (fun _ => true)
        (process_comments 10 (fun _ => true) ⟨∅, false⟩ [[1, 2]]).state [[1, 2]]).newCount = 0 ∧
    (process_comments 10 (fun _ => true)
        (process_comments 10 (fun _ => true) ⟨∅, false⟩ [[1, 2]]).state [[1, 2]]).attempts = [] :=
  rerun_same_input_no_deliveries 10 (fun _ => true) ⟨∅, false⟩ [[1, 2]] rfl (by decide)

/-- C9: a bootstrap cycle recording strictly more identifiers than the
ceiling ends with the first-run flag lowered and, the ceiling check running
afterwards, with the seen-set cleared; the next cycle fetching the same
posts therefore treats every pre-existing comment as new and attempts a
delivery for each fetched identifier. -/
theorem bootstrap_overflow_causes_renotification (cacheLimit : Nat)
    (sink sink2 : Int → Bool) (posts : List (List Int)) (hne : posts ≠ [])
    (hcard : (processAllPosts sink ⟨∅, true⟩ posts).state.seen_comments.card > cacheLimit) :
    (process_comments cacheLimit sink ⟨∅, true⟩ posts).state.is_first_run = false ∧
    (process_comments cacheLimit sink ⟨∅, true⟩ posts).state.seen_comments = ∅ ∧
    ∀ cs ∈ posts, ∀ cid ∈ cs,
      cid ∈ (process_comments cacheLimit sink2
        (process_comments cacheLimit sink ⟨∅, true⟩ posts).state posts).attempts := by
  have hflag : (process_comments cacheLimit sink ⟨∅, true⟩ posts).state.is_first_run = false :=
    process_comments_first_run_false hne
  have hempty : (process_comments cacheLimit sink ⟨∅, true⟩ posts).state.seen_comments = ∅ := by
    rw [process_comments_seen_eq hne, if_pos hcard]
  refine ⟨hflag, hempty, ?_⟩
  intro cs hcs cid hcid
  rw [process_comments_attempts hne]
  refine processAllPosts_attempted _ posts hflag hcs hcid ?_
  rw [hempty]
  exact Finset.not_mem_empty cid

/-- C9 witness: ceiling 2, a bootstrap fetch of 3 comments; the second
cycle re-attempts all of them. -/
theorem bootstrap_overflow_causes_renotification_witness :
    (process_comments 2 (fun _ => true) ⟨∅, true⟩ [[1, 2, 3]]).state.seen_comments = ∅ ∧
    (3 : Int) ∈ (process_comments 2 (fun _ => true)
      (process_comments 2 (fun _ => true) ⟨∅, true⟩ [[1, 2, 3]]).state [[1, 2, 3]]).attempts := by
  have h := bootstrap_overflow_causes_renotification 2 (fun _ => true) (fun _ => true)
    [[1, 2, 3]] (by decide) (by decide)
  exact ⟨h.2.1, h.2.2 [1, 2, 3] (by decide) 3 (by decide)⟩

/-- C8: `send_telegram_message` makes at most `retry_count` attempts;
it returns success exactly when one of the attempts within the budget
succeeds (hence failure once all attempts are exhausted); and after any
unsuccessful prefix of attempts (rate-limited or failing) it retries while
budget remains. -/
theorem send_telegram_message_retry_contract (outcome : Nat → TgOutcome) (retry_count : Nat) :
    (send_telegram_message outcome retry_count).2 ≤ retry_count ∧
    ((send_telegram_message outcome retry_count).1 = true ↔
      ∃ j, j < retry_count ∧ outcome j = TgOutcome.success) ∧
    (∀ m, (∀ j, j ≤ m → outcome j ≠ TgOutcome.success) → m + 1 < retry_count →
      m + 2 ≤ (send_telegram_message outcome retry_count).2) := by
  refine ⟨sendAttemptLoop_le outcome retry_count 0, ?_, ?_⟩
  · rw [send_telegram_message, sendAttemptLoop_true_iff outcome retry_count 0]
    constructor
    · rintro ⟨j, hj, hsj⟩
      exact ⟨j, hj, by rwa [Nat.zero_add] at hsj⟩
    · rintro ⟨j, hj, hsj⟩
      exact ⟨j, hj, by rwa [Nat.zero_add]⟩
  · intro m hns hm
    refine sendAttemptLoop_continues outcome m retry_count 0 ?_ hm
    intro j hj
    rw [Nat.zero_add]
    exact hns j hj

/-- C8 witness: with the default budget of 3 and an oracle that is rate
limited on the first attempt and succeeds on the second, delivery succeeds,
at least two and at most three attempts are made. -/
theorem send_telegram_message_retry_contract_witness :
    (send_telegram_message tgOutcomeEx 3).1 = true ∧
    (send_telegram_message tgOutcomeEx 3).2 ≤ 3 ∧
    2 ≤ (send_telegram_message tgOutcomeEx 3).2 := by
  have h := send_telegram_message_retry_contract tgOutcomeEx 3
  refine ⟨h.2.1.mpr ⟨1, by decide, by decide⟩, h.1, h.2.2 0 (by decide) (by decide)⟩

/-- C10: the author-enrichment step of `get_post_comments` requires a
numeric `from_id` on every fetched comment record: a record whose
`from_id` is absent makes the `from_id > 0` comparison raise, and the
fetch for that post aborts with an error instead of returning a comment
list. -/
theorem missing_from_id_aborts_fetch (profiles groups : Int → Option String)
    (comments : List RawComment) (c : RawComment)
    (hc : c ∈ comments) (hnone : c.from_id = none) :
    ∃ e, get_post_comments profiles groups comments = Except.error e := by
  induction comments with
  | nil => cases hc
  | cons a rest ih =>
    rcases List.mem_cons.mp hc with heq | hmem
    · have ha : a.from_id = none := heq ▸ hnone
      exact ⟨"TypeError: '>' not supported between instances of 'NoneType' and 'int'",
        by simp [get_post_comments, enrichComment, ha]⟩
    · cases henr : enrichComment profiles groups a with
      | error e2 => exact ⟨e2, by simp [get_post_comments, henr]⟩
      | ok ec =>
        rcases ih hmem with ⟨e, he⟩
        exact ⟨e, by simp [get_post_comments, henr, he]⟩

/-- C10 witness: a single fetched comment without `from_id` aborts the
fetch. -/
theorem missing_from_id_aborts_fetch_witness :
    ∃ e, get_post_comments (fun _ => none) (fun _ => none) [⟨1, none⟩] = Except.error e :=
  missing_from_id_aborts_fetch (fun _ => none) (fun _ => none) [⟨1, none⟩] ⟨1, none⟩
    (List.mem_singleton.mpr rfl) rfl

end VKMonitor
